import Mathlib

set_option maxHeartbeats 1000000
set_option maxRecDepth 100000

/-!
A shallow embedding of the catalog/ordering app in this repository
(src/types.ts, src/utils.ts, src/services/syncService.ts, src/App.tsx).

JavaScript strings are modelled as Lean strings (one entry per code
point; the hash reads `charCodeAt`, which agrees with the code point on
the basic multilingual plane).  JavaScript numbers in the data records
(quantities, rates, amounts) are modelled as integers.  Browser
localStorage is modelled as an explicit record of the three persisted
cells, threaded through the functions that read and write it.
-/

namespace ESBE

/- ---------- Data model, from src/types.ts ---------- -/

structure RawProduct where
  productName : String
  quantity : Int
  rate : Int
  amount : Int
  imageUrl : String
deriving DecidableEq

structure RawGroup where
  groupName : String
  products : List RawProduct
deriving DecidableEq

structure Product where
  productName : String
  quantity : Int
  rate : Int
  amount : Int
  imageUrl : String
  id : String
  groupName : String
  searchString : String
deriving DecidableEq

structure CartItem where
  productId : String
  productName : String
  rate : Int
  sets : Int
  note : String
  imageUrl : String
  groupName : String
deriving DecidableEq

structure SyncStats where
  added : Nat
  updated : Nat
  deleted : Nat
  lastSynced : Option String
deriving DecidableEq

/- ---------- Identifier generator, from src/utils.ts lines 6-16 ---------- -/

/-- The whitespace characters removed from both ends of a string by the
JavaScript trim method (Unicode WhiteSpace plus LineTerminator). -/
def jsWhitespace (c : Char) : Bool :=
  ([0x9, 0xA, 0xB, 0xC, 0xD, 0x20, 0xA0, 0x1680,
    0x2000, 0x2001, 0x2002, 0x2003, 0x2004, 0x2005, 0x2006, 0x2007,
    0x2008, 0x2009, 0x200A, 0x2028, 0x2029, 0x202F, 0x205F, 0x3000,
    0xFEFF] : List Nat).contains c.toNat

/-- JavaScript String.prototype.trim. -/
def jsTrim (s : String) : String :=
  ⟨(((s.data.dropWhile jsWhitespace).reverse).dropWhile jsWhitespace).reverse⟩

/-- JavaScript String.prototype.toLowerCase, modelled on the ASCII
fragment exercised by this app (Char.toLower maps A-Z to a-z and keeps
every other character). -/
def jsToLower (s : String) : String :=
  ⟨s.data.map Char.toLower⟩

/-- Reinterpret an integer through the low 32 bits as a signed 32-bit
value: the effect of the JavaScript ToInt32 conversion performed by the
bitwise operators in the hash loop. -/
def toInt32 (n : Int) : Int :=
  if n % (2 ^ 32 : Int) < 2 ^ 31 then n % 2 ^ 32 else n % 2 ^ 32 - 2 ^ 32

/-- One iteration of the hash loop:
`hash = (hash << 5) - hash + char; hash = hash & hash;`.
The shift truncates its own result to 32-bit signed, and the
self-conjunction truncates the sum again. -/
def hashStep (hash : Int) (code : Nat) : Int :=
  toInt32 (toInt32 (hash * 32) - hash + (code : Int))

/-- src/utils.ts, generateProductId: trim the two names, join them with
an underscore, run the 32-bit rolling hash over the character codes,
take the absolute value and render it in lowercase hexadecimal. -/
def generateProductId (groupName productName : String) : String :=
  let str := jsTrim groupName ++ "_" ++ jsTrim productName
  let hash := str.data.foldl (fun h c => hashStep h c.toNat) 0
  (Nat.toDigits 16 hash.natAbs).asString

/-- The identifier generator as the specification words it: fold
`hash := (hash << 5) - hash + charCode` over the combined string,
truncating the step result to 32-bit signed integer semantics, then
absolute value and hexadecimal.  Written for comparison with
`generateProductId`, which is translated from the source. -/
def generateIdSpec (groupName productName : String) : String :=
  let str := jsTrim groupName ++ "_" ++ jsTrim productName
  let hash := str.data.foldl (fun h c => toInt32 (h * 32 - h + (c.toNat : Int))) 0
  (Nat.toDigits 16 hash.natAbs).asString

/- ---------- Catalog normalizer, from src/utils.ts lines 18-31 ---------- -/

/-- The record pushed for one raw product of one group: all raw fields,
the generated id, the parent group name, and the lowercase search key. -/
def normalizeProduct (group : RawGroup) (p : RawProduct) : Product :=
  { productName := p.productName
    quantity := p.quantity
    rate := p.rate
    amount := p.amount
    imageUrl := p.imageUrl
    id := generateProductId group.groupName p.productName
    groupName := group.groupName
    searchString := jsToLower group.groupName ++ " " ++ jsToLower p.productName }

/-- src/utils.ts, normalizeData: the nested forEach loops pushing one
record per raw product onto the accumulator. -/
def normalizeData (rawGroups : List RawGroup) : List Product :=
  rawGroups.foldl
    (fun allProducts group =>
      group.products.foldl
        (fun acc p => acc ++ [normalizeProduct group p]) allProducts)
    []

/- ---------- Storage wrappers, from src/utils.ts lines 33-69 ---------- -/

/-- The three persisted localStorage cells: the serialized product list,
the serialized cart, and the last-sync timestamp string (absence of the
key is the empty list, resp. null). -/
structure PersistedState where
  products : List Product
  cart : List CartItem
  lastSync : Option String
deriving DecidableEq

def saveProductsToStorage (products : List Product) (st : PersistedState) :
    PersistedState :=
  { st with products := products }

def loadProductsFromStorage (st : PersistedState) : List Product :=
  st.products

def saveCartToStorage (cart : List CartItem) (st : PersistedState) :
    PersistedState :=
  { st with cart := cart }

def saveLastSync (date : String) (st : PersistedState) : PersistedState :=
  { st with lastSync := some date }

/-- src/utils.ts, clearAllData: removes all three keys. -/
def clearAllData (_st : PersistedState) : PersistedState :=
  { products := [], cart := [], lastSync := none }

/- ---------- Sync orchestrator, from src/services/syncService.ts ---------- -/

/-- Outcome of the fetch-and-parse phase of performSync.  `failure`
covers the three ways it can go wrong before any storage write: the
fetch rejects, `response.ok` is false (the explicit throw on line 9),
or `response.json()` rejects on a malformed body. -/
inductive FetchResult where
  | failure : FetchResult
  | success : List RawGroup → FetchResult
deriving DecidableEq

/-- `new Map(l.map(p => [p.id, p])).get(i)`: with duplicate keys the
later insertion wins, so the lookup returns the last list entry whose
id matches. -/
def mapGet (l : List Product) (i : String) : Option Product :=
  l.reverse.find? (fun p => p.id == i)

/-- `new Map(l.map(p => [p.id, p])).has(i)`. -/
def mapHas (l : List Product) (i : String) : Bool :=
  l.any (fun p => p.id == i)

/-- The body of the first forEach of performSync (lines 24-34): a miss
in the current mapping counts as added, a hit with different content
counts as updated.  The content comparison
`JSON.stringify(existing) !== JSON.stringify(np)` is deep value
equality over all fields, modelled as structural inequality. -/
def addedUpdatedStep (currentProducts : List Product)
    (acc : Nat × Nat) (np : Product) : Nat × Nat :=
  match mapGet currentProducts np.id with
  | none => (acc.1 + 1, acc.2)
  | some existing =>
    if existing ≠ np then (acc.1, acc.2 + 1) else acc

/-- The body of the second forEach of performSync (lines 37-41): a
current product missing from the new mapping counts as deleted. -/
def deletedStep (newProducts : List Product) (acc : Nat) (cp : Product) :
    Nat :=
  if mapHas newProducts cp.id then acc else acc + 1

/-- The two counting loops of performSync: the added/updated tallies
over the new list, then the deleted tally over the current list. -/
def syncDeltas (currentProducts newProducts : List Product) :
    Nat × Nat × Nat :=
  let addedUpdated :=
    newProducts.foldl (addedUpdatedStep currentProducts) (0, 0)
  let deleted := currentProducts.foldl (deletedStep newProducts) 0
  (addedUpdated.1, addedUpdated.2, deleted)

/-- src/services/syncService.ts, performSync.  The fetch outcome and
the wall-clock timestamp are parameters; the persisted state is
threaded explicitly.  On failure the catch block rethrows having
touched no storage; on success the counts are computed, then the cache
and the last-sync marker are overwritten, and the new list and stats
are returned. -/
def performSync (fetch : FetchResult) (now : String) (st : PersistedState) :
    PersistedState × Except Unit (List Product × SyncStats) :=
  match fetch with
  | .failure => (st, .error ())
  | .success rawData =>
    let newProducts := normalizeData rawData
    let currentProducts := loadProductsFromStorage st
    let deltas := syncDeltas currentProducts newProducts
    let st1 := saveProductsToStorage newProducts st
    let st2 := saveLastSync now st1
    (st2, .ok (newProducts,
      { added := deltas.1
        updated := deltas.2.1
        deleted := deltas.2.2
        lastSynced := some now }))

/- ---------- Cart builder, from src/App.tsx lines 766-795 ---------- -/

/-- src/App.tsx, addToCart: findIndex on productId; on a hit the entry
is replaced in place, otherwise the item is appended. -/
def addToCart (prev : List CartItem) (item : CartItem) : List CartItem :=
  match prev.findIdx? (fun i => i.productId == item.productId) with
  | some existingIdx => prev.set existingIdx item
  | none => prev ++ [item]

/-- src/App.tsx, removeFromCart: keeps the entries whose productId
differs. -/
def removeFromCart (prev : List CartItem) (id : String) : List CartItem :=
  prev.filter (fun i => !(i.productId == id))

/-- src/App.tsx, clearData: clearAllData plus resetting the in-memory
state to empty. -/
def clearData (st : PersistedState) : PersistedState :=
  clearAllData st

/-- A user action touching the cart, for the cart invariant. -/
inductive CartOp where
  | add : CartItem → CartOp
  | remove : String → CartOp
  | clear : CartOp

/-- One cart action applied to the persisted state, with the cart
persisted after the mutation as in src/App.tsx. -/
def applyCartOp (st : PersistedState) : CartOp → PersistedState
  | .add item => saveCartToStorage (addToCart st.cart item) st
  | .remove id => saveCartToStorage (removeFromCart st.cart id) st
  | .clear => clearData st

/- ---------- Order total and export, src/App.tsx line 577 and
src/utils.ts lines 101-113 ---------- -/

/-- CartPage: `cart.reduce((acc, item) => acc + item.sets * item.rate, 0)`. -/
def cartTotal (cart : List CartItem) : Int :=
  cart.foldl (fun acc item => acc + item.sets * item.rate) 0

/-- generateAndSharePDF, per-row total in the exported table:
`item.sets > 0 ? item.sets * item.rate : 0`. -/
def pdfLineTotal (item : CartItem) : Int :=
  if item.sets > 0 then item.sets * item.rate else 0

/- ---------- Analysis helpers and concrete test data ---------- -/

/-- Whether one pass of addedUpdatedStep counts the new product as
added: no entry in the current mapping carries its id. -/
def addedFlag (currentProducts : List Product) (np : Product) : Bool :=
  (mapGet currentProducts np.id).isNone

/-- Whether one pass of addedUpdatedStep counts the new product as
updated: the current mapping holds its id with different content. -/
def updatedFlag (currentProducts : List Product) (np : Product) : Bool :=
  match mapGet currentProducts np.id with
  | none => false
  | some existing => decide (existing ≠ np)

/-- The raw product of the end-to-end scenario of the specification. -/
def blackRaw : RawProduct :=
  { productName := "Black", quantity := 5, rate := 100, amount := 500,
    imageUrl := "u" }

def inksGroup : RawGroup :=
  { groupName := "Inks", products := [blackRaw] }

def inksCatalog : List RawGroup := [inksGroup]

/-- The normalized record the end-to-end scenario promises. -/
def inksProduct : Product :=
  { productName := "Black", quantity := 5, rate := 100, amount := 500,
    imageUrl := "u", id := "32d4568d", groupName := "Inks",
    searchString := "inks black" }

/-- The first cart entry of the cart-exclusivity scenario. -/
def itemX2 : CartItem :=
  { productId := "X", productName := "X", rate := 10, sets := 2,
    note := "", imageUrl := "", groupName := "G" }

/-- The second cart entry of the cart-exclusivity scenario. -/
def itemX0 : CartItem :=
  { productId := "X", productName := "X", rate := 10, sets := 0,
    note := "custom", imageUrl := "", groupName := "G" }

/-- A note-mode cart entry: zero sets, nonzero rate. -/
def noteItem : CartItem :=
  { productId := "Y", productName := "Pen", rate := 50, sets := 0,
    note := "call", imageUrl := "", groupName := "G" }

/-- Fresh persisted state: no cached products, empty cart, no sync. -/
def emptyState : PersistedState :=
  { products := [], cart := [], lastSync := none }

/-- A sample action sequence exercising every cart operation. -/
def ops0 : List CartOp :=
  [CartOp.add itemX2, CartOp.add noteItem, CartOp.add itemX0,
   CartOp.remove "X", CartOp.clear, CartOp.add itemX2]

/- ---------- Helper lemmas ---------- -/

theorem toInt32_emod (n : Int) : toInt32 n % 2 ^ 32 = n % 2 ^ 32 := by
  unfold toInt32
  split <;> omega

theorem toInt32_congr {a b : Int} (h : a % 2 ^ 32 = b % 2 ^ 32) :
    toInt32 a = toInt32 b := by
  unfold toInt32
  rw [h]

/-- Truncating the shift separately changes nothing: the step of the
source hash agrees with a single truncation of the whole expression. -/
theorem hashStep_eq (h : Int) (c : Nat) :
    hashStep h c = toInt32 (h * 32 - h + (c : Int)) := by
  unfold hashStep
  apply toInt32_congr
  have h32 := toInt32_emod (h * 32)
  omega

theorem foldl_add_eq_sum {α : Type} (f : α → Int) :
    ∀ (l : List α) (n : Int),
      l.foldl (fun acc x => acc + f x) n = n + (l.map f).sum := by
  intro l
  induction l with
  | nil => intro n; simp
  | cons x l ih =>
    intro n
    rw [List.foldl_cons, ih, List.map_cons, List.sum_cons]
    omega

/- ---------- Claim theorems ---------- -/

/-- C4: generateProductId is a total deterministic pure function (a
Lean function), and its value depends only on the trimmed group and
product names: equal trims give equal identifiers. -/
theorem generateProductId_trim_invariant (g1 p1 g2 p2 : String)
    (hg : jsTrim g1 = jsTrim g2) (hp : jsTrim p1 = jsTrim p2) :
    generateProductId g1 p1 = generateProductId g2 p2 := by
  unfold generateProductId
  rw [hg, hp]

theorem generateProductId_trim_invariant_witness :
    jsTrim " Inks " = jsTrim "Inks" ∧ jsTrim "Black " = jsTrim "Black" ∧
    generateProductId " Inks " "Black " = generateProductId "Inks" "Black" :=
  ⟨by decide, by decide,
   generateProductId_trim_invariant " Inks " "Black " "Inks" "Black"
     (by decide) (by decide)⟩

/-- C5: generateProductId coincides with the reference definition of
the specification (trim, join with a separator, 32-bit rolling hash
with signed truncation at each step, absolute value, hexadecimal), and
on the end-to-end catalog the single normalized record carries the
fixed identifier derived from the string Inks_Black. -/
theorem generateProductId_refines_reference :
    (∀ g p, generateProductId g p = generateIdSpec g p) ∧
    normalizeData inksCatalog = [inksProduct] := by
  constructor
  · intro g p
    simp only [generateProductId, generateIdSpec]
    have hfold :
        (jsTrim g ++ "_" ++ jsTrim p).data.foldl
            (fun h c => hashStep h c.toNat) 0 =
          (jsTrim g ++ "_" ++ jsTrim p).data.foldl
            (fun h c => toInt32 (h * 32 - h + (c.toNat : Int))) 0 :=
      List.foldl_ext _ _ 0 (fun a b _ => hashStep_eq a b.toNat)
    rw [hfold]
  · decide

/-- C2: when the fetch-and-parse phase fails, performSync rethrows and
the persisted state is returned untouched: no storage write happens
before the failure. -/
theorem performSync_failure_state_unchanged (now : String)
    (st : PersistedState) :
    (performSync FetchResult.failure now st).1 = st ∧
    (performSync FetchResult.failure now st).2 = Except.error () :=
  ⟨rfl, rfl⟩

/-- C3: after a successful performSync the persisted product cache is
exactly the freshly normalized list, the last-sync marker holds the
new timestamp, and the persisted cart is untouched. -/
theorem performSync_success_replaces_cache (rawData : List RawGroup)
    (now : String) (st : PersistedState) :
    (performSync (FetchResult.success rawData) now st).1.products =
      normalizeData rawData ∧
    (performSync (FetchResult.success rawData) now st).1.lastSync =
      some now ∧
    (performSync (FetchResult.success rawData) now st).1.cart = st.cart :=
  ⟨rfl, rfl, rfl⟩

/-- C10: the grand total of the order is the sum of sets times rate
over the cart, and a note-mode entry (zero sets) contributes zero to
it and is rendered with a zero line total in the exported table,
whatever its rate. -/
theorem cartTotal_sum_spec (cart : List CartItem) :
    cartTotal cart = (cart.map (fun i => i.sets * i.rate)).sum ∧
    ∀ i ∈ cart, i.sets = 0 → i.sets * i.rate = 0 ∧ pdfLineTotal i = 0 := by
  constructor
  · unfold cartTotal
    rw [foldl_add_eq_sum]
    omega
  · intro i _ hz
    refine ⟨by rw [hz]; ring, ?_⟩
    unfold pdfLineTotal
    rw [hz]
    simp

theorem cartTotal_sum_spec_witness :
    noteItem.sets = 0 ∧
    noteItem.sets * noteItem.rate = 0 ∧ pdfLineTotal noteItem = 0 :=
  ⟨rfl, (cartTotal_sum_spec [noteItem]).2 noteItem (by simp) rfl⟩

end ESBE

namespace ESBE

theorem foldl_push_eq_append {α β : Type} (f : α → β) :
    ∀ (l : List α) (acc : List β),
      l.foldl (fun acc x => acc ++ [f x]) acc = acc ++ l.map f := by
  intro l
  induction l with
  | nil => intro acc; simp
  | cons x l ih =>
    intro acc
    rw [List.foldl_cons, ih, List.map_cons]
    simp

/-- The nested push loops of normalizeData flatten the groups in
order: group order first, then product order inside each group. -/
theorem normalizeData_eq_flatMap (rawGroups : List RawGroup) :
    normalizeData rawGroups =
      rawGroups.flatMap (fun g => g.products.map (normalizeProduct g)) := by
  suffices h : ∀ acc : List Product,
      rawGroups.foldl
          (fun allProducts group =>
            group.products.foldl
              (fun acc p => acc ++ [normalizeProduct group p]) allProducts)
          acc =
        acc ++ rawGroups.flatMap (fun g => g.products.map (normalizeProduct g)) by
    simpa [normalizeData] using h []
  induction rawGroups with
  | nil => intro acc; simp
  | cons g gs ih =>
    intro acc
    rw [List.foldl_cons, foldl_push_eq_append, ih, List.flatMap_cons]
    simp

theorem length_flatMap_products (rawGroups : List RawGroup) :
    (rawGroups.flatMap (fun g => g.products.map (normalizeProduct g))).length =
      (rawGroups.map (fun g => g.products.length)).sum := by
  induction rawGroups with
  | nil => simp
  | cons g gs ih => simp [List.flatMap_cons, ih]

/-- C6: normalizeData yields one record per raw product across all
groups, in group order then product order, its length is the sum of
the lengths of the products arrays, and no deduplication happens (the
flatten keeps one record per source entry whatever the ids are). -/
theorem normalizeData_order_and_length (rawGroups : List RawGroup) :
    normalizeData rawGroups =
      rawGroups.flatMap (fun g => g.products.map (normalizeProduct g)) ∧
    (normalizeData rawGroups).length =
      (rawGroups.map (fun g => g.products.length)).sum := by
  refine ⟨normalizeData_eq_flatMap rawGroups, ?_⟩
  rw [normalizeData_eq_flatMap]
  exact length_flatMap_products rawGroups

/-- C7: every raw product of every group appears in the output as the
record keeping all raw fields, stamped with the identifier generated
from the parent group name and its own name, the parent group name,
and the lowercase search key. -/
theorem normalizeData_field_spec (rawGroups : List RawGroup)
    (g : RawGroup) (p : RawProduct)
    (hg : g ∈ rawGroups) (hp : p ∈ g.products) :
    normalizeData rawGroups =
      rawGroups.flatMap (fun gr => gr.products.map (normalizeProduct gr)) ∧
    normalizeProduct g p ∈ normalizeData rawGroups ∧
    (normalizeProduct g p).productName = p.productName ∧
    (normalizeProduct g p).quantity = p.quantity ∧
    (normalizeProduct g p).rate = p.rate ∧
    (normalizeProduct g p).amount = p.amount ∧
    (normalizeProduct g p).imageUrl = p.imageUrl ∧
    (normalizeProduct g p).id =
      generateProductId g.groupName p.productName ∧
    (normalizeProduct g p).groupName = g.groupName ∧
    (normalizeProduct g p).searchString =
      jsToLower g.groupName ++ " " ++ jsToLower p.productName := by
  refine ⟨normalizeData_eq_flatMap rawGroups, ?_,
    rfl, rfl, rfl, rfl, rfl, rfl, rfl, rfl⟩
  rw [normalizeData_eq_flatMap]
  exact List.mem_flatMap.mpr ⟨g, hg, List.mem_map_of_mem _ hp⟩

theorem normalizeData_field_spec_witness :
    inksGroup ∈ inksCatalog ∧ blackRaw ∈ inksGroup.products ∧
    normalizeProduct inksGroup blackRaw ∈ normalizeData inksCatalog :=
  ⟨by decide, by decide,
   (normalizeData_field_spec inksCatalog inksGroup blackRaw
     (by decide) (by decide)).2.1⟩

theorem findIdx?_append_cons {α : Type} (p : α → Bool) :
    ∀ (pre : List α) (x : α) (post : List α),
      (∀ a ∈ pre, p a = false) → p x = true →
      (pre ++ x :: post).findIdx? p = some pre.length := by
  intro pre
  induction pre with
  | nil =>
    intro x post _ hx
    simp [List.findIdx?_cons, hx]
  | cons a pre ih =>
    intro x post h hx
    have ha : p a = false := h a (List.mem_cons_self a pre)
    rw [List.cons_append, List.findIdx?_cons, ha]
    simp [ih x post (fun b hb => h b (List.mem_cons_of_mem a hb)) hx]

theorem set_append_cons {α : Type} :
    ∀ (pre : List α) (x : α) (post : List α) (y : α),
      (pre ++ x :: post).set pre.length y = pre ++ y :: post := by
  intro pre
  induction pre with
  | nil => intro x post y; rfl
  | cons a pre ih =>
    intro x post y
    rw [List.cons_append, List.length_cons, List.set_cons_succ, ih,
      List.cons_append]

/-- C8: addToCart replaces in place when an entry with the same
productId already sits in the cart (same position, no duplicate, every
other entry kept in order) and appends otherwise; in particular
adding the sets-2 entry for X and then the note entry for X leaves
exactly the note entry. -/
theorem addToCart_replace_or_append (cart : List CartItem)
    (item : CartItem) :
    ((∀ i ∈ cart, i.productId ≠ item.productId) →
      addToCart cart item = cart ++ [item]) ∧
    (∀ pre x post, cart = pre ++ x :: post →
      x.productId = item.productId →
      (∀ i ∈ pre, i.productId ≠ item.productId) →
      addToCart cart item = pre ++ item :: post) ∧
    addToCart (addToCart [] itemX2) itemX0 = [itemX0] := by
  refine ⟨?_, ?_, by decide⟩
  · intro h
    unfold addToCart
    have hnone :
        cart.findIdx? (fun i => i.productId == item.productId) = none := by
      rw [List.findIdx?_eq_none_iff]
      intro i hi
      simp only [beq_eq_false_iff_ne]
      exact h i hi
    rw [hnone]
  · intro pre x post hcart hx hpre
    subst hcart
    unfold addToCart
    have hfind :
        (pre ++ x :: post).findIdx?
            (fun i => i.productId == item.productId) = some pre.length := by
      apply findIdx?_append_cons
      · intro a ha
        simp only [beq_eq_false_iff_ne]
        exact hpre a ha
      · simp only [beq_iff_eq]
        exact hx
    rw [hfind]
    exact set_append_cons pre x post item

theorem addToCart_replace_or_append_witness :
    addToCart [itemX2] itemX0 = [itemX0] :=
  (addToCart_replace_or_append [itemX2] itemX0).2.1 [] itemX2 [] rfl rfl
    (by simp)

theorem set_get_self {α : Type} :
    ∀ (l : List α) (n : Nat) (h : n < l.length),
      l.set n (l.get ⟨n, h⟩) = l := by
  intro l
  induction l with
  | nil => intro n h; cases h
  | cons a l ih =>
    intro n h
    cases n with
    | zero => rfl
    | succ n =>
      have hget : (a :: l).get ⟨n + 1, h⟩ =
          l.get ⟨n, Nat.lt_of_succ_lt_succ h⟩ := rfl
      rw [List.set_cons_succ, hget, ih n (Nat.lt_of_succ_lt_succ h)]

theorem addToCart_nodup (cart : List CartItem) (item : CartItem)
    (h : (cart.map CartItem.productId).Nodup) :
    ((addToCart cart item).map CartItem.productId).Nodup := by
  unfold addToCart
  cases hIdx : cart.findIdx? (fun i => i.productId == item.productId) with
  | none =>
    have hnone := List.findIdx?_eq_none_iff.mp hIdx
    rw [List.map_append, List.map_cons, List.map_nil, List.nodup_append]
    refine ⟨h, List.nodup_singleton _, fun a ha hb => ?_⟩
    rcases List.mem_map.mp ha with ⟨x, hx, rfl⟩
    rw [List.mem_singleton] at hb
    have hne : x.productId ≠ item.productId := by
      have := hnone x hx
      simpa using this
    exact hne hb
  | some idx =>
    rcases List.findIdx?_eq_some_iff_getElem.mp hIdx with ⟨hlt, hp, -⟩
    rw [List.map_set]
    have hlen : idx < (cart.map CartItem.productId).length := by
      simpa using hlt
    have hpid :
        (cart.map CartItem.productId).get ⟨idx, hlen⟩ = item.productId := by
      simp only [List.get_eq_getElem, List.getElem_map]
      simpa using hp
    rw [← hpid, set_get_self]
    exact h

theorem removeFromCart_nodup (cart : List CartItem) (id : String)
    (h : (cart.map CartItem.productId).Nodup) :
    ((removeFromCart cart id).map CartItem.productId).Nodup := by
  unfold removeFromCart
  exact ((List.filter_sublist cart).map CartItem.productId).nodup h

/-- C9: from the empty cart, every finite sequence of addToCart,
removeFromCart and clearData actions keeps the productId fields of the
cart entries pairwise distinct. -/
theorem cart_ops_productIds_nodup (ops : List CartOp)
    (st0 : PersistedState) (h0 : st0.cart = []) :
    (((ops.foldl applyCartOp st0).cart).map CartItem.productId).Nodup := by
  have main : ∀ (l : List CartOp) (st : PersistedState),
      (st.cart.map CartItem.productId).Nodup →
      (((l.foldl applyCartOp st).cart).map CartItem.productId).Nodup := by
    intro l
    induction l with
    | nil => intro st h; simpa using h
    | cons op l ih =>
      intro st h
      rw [List.foldl_cons]
      apply ih
      cases op with
      | add item => exact addToCart_nodup st.cart item h
      | remove id => exact removeFromCart_nodup st.cart id h
      | clear => simp [applyCartOp, clearData, clearAllData]
  apply main
  rw [h0]
  simp

theorem cart_ops_productIds_nodup_witness :
    (((ops0.foldl applyCartOp emptyState).cart).map CartItem.productId).Nodup :=
  cart_ops_productIds_nodup ops0 emptyState rfl

theorem foldl_deletedStep (newProducts : List Product) :
    ∀ (l : List Product) (n : Nat),
      l.foldl (deletedStep newProducts) n =
        n + l.countP (fun cp => !mapHas newProducts cp.id) := by
  intro l
  induction l with
  | nil => intro n; simp
  | cons x l ih =>
    intro n
    rw [List.foldl_cons, ih, List.countP_cons]
    unfold deletedStep
    cases hx : mapHas newProducts x.id
    · simp [hx]
      all_goals omega
    · simp [hx]
      all_goals omega

theorem foldl_addedUpdatedStep (currentProducts : List Product) :
    ∀ (l : List Product) (a b : Nat),
      l.foldl (addedUpdatedStep currentProducts) (a, b) =
        (a + l.countP (addedFlag currentProducts),
         b + l.countP (updatedFlag currentProducts)) := by
  intro l
  induction l with
  | nil => intro a b; simp
  | cons x l ih =>
    intro a b
    rw [List.foldl_cons]
    cases hx : mapGet currentProducts x.id with
    | none =>
      have hstep : addedUpdatedStep currentProducts (a, b) x = (a + 1, b) := by
        unfold addedUpdatedStep
        rw [hx]
      have hA : addedFlag currentProducts x = true := by
        unfold addedFlag
        rw [hx]
        rfl
      have hU : updatedFlag currentProducts x = false := by
        unfold updatedFlag
        rw [hx]
      rw [hstep, ih]
      simp [List.countP_cons, hA, hU, Prod.mk.injEq]
      all_goals omega
    | some ex =>
      by_cases hd : ex = x
      · have hstep : addedUpdatedStep currentProducts (a, b) x = (a, b) := by
          unfold addedUpdatedStep
          rw [hx]
          simp [hd]
        have hA : addedFlag currentProducts x = false := by
          unfold addedFlag
          rw [hx]
          rfl
        have hU : updatedFlag currentProducts x = false := by
          unfold updatedFlag
          rw [hx]
          simp [hd]
        rw [hstep, ih]
        simp [List.countP_cons, hA, hU, Prod.mk.injEq]
        all_goals omega
      · have hstep : addedUpdatedStep currentProducts (a, b) x = (a, b + 1) := by
          unfold addedUpdatedStep
          rw [hx]
          simp [hd]
        have hA : addedFlag currentProducts x = false := by
          unfold addedFlag
          rw [hx]
          rfl
        have hU : updatedFlag currentProducts x = true := by
          unfold updatedFlag
          rw [hx]
          simp [hd]
        rw [hstep, ih]
        simp [List.countP_cons, hA, hU, Prod.mk.injEq]
        all_goals omega

theorem syncDeltas_eq_countP (currentProducts newProducts : List Product) :
    syncDeltas currentProducts newProducts =
      (newProducts.countP (addedFlag currentProducts),
       newProducts.countP (updatedFlag currentProducts),
       currentProducts.countP (fun cp => !mapHas newProducts cp.id)) := by
  unfold syncDeltas
  rw [foldl_addedUpdatedStep, foldl_deletedStep]
  simp

theorem mapGet_eq_none_iff (l : List Product) (i : String) :
    mapGet l i = none ↔ ∀ p ∈ l, p.id ≠ i := by
  unfold mapGet
  rw [List.find?_eq_none]
  constructor
  · intro h p hp
    have := h p (List.mem_reverse.mpr hp)
    simpa using this
  · intro h p hp
    have := h p (List.mem_reverse.mp hp)
    simpa using this

theorem mapGet_eq_some (l : List Product) (i : String) (ex : Product)
    (h : mapGet l i = some ex) : ex ∈ l ∧ ex.id = i := by
  unfold mapGet at h
  refine ⟨List.mem_reverse.mp (List.mem_of_find?_eq_some h), ?_⟩
  have := List.find?_some h
  simpa using this

theorem mapHas_eq_false_iff (l : List Product) (i : String) :
    mapHas l i = false ↔ ∀ p ∈ l, p.id ≠ i := by
  unfold mapHas
  rw [List.any_eq_false]
  constructor <;> intro h p hp <;> simpa using h p hp

theorem addedFlag_iff (current : List Product) (np : Product) :
    addedFlag current np = true ↔ ∀ cp ∈ current, cp.id ≠ np.id := by
  unfold addedFlag
  rw [Option.isNone_iff_eq_none, mapGet_eq_none_iff]

theorem updatedFlag_iff (current : List Product) (np : Product)
    (hc : (current.map Product.id).Nodup) :
    updatedFlag current np = true ↔
      ∃ cp ∈ current, cp.id = np.id ∧ cp ≠ np := by
  unfold updatedFlag
  cases h : mapGet current np.id with
  | none =>
    simp only [Bool.false_eq_true, false_iff]
    rintro ⟨cp, hcp, hid, -⟩
    exact (mapGet_eq_none_iff current np.id).mp h cp hcp hid
  | some ex =>
    rw [decide_eq_true_eq]
    obtain ⟨hmem, hid⟩ := mapGet_eq_some current np.id ex h
    constructor
    · intro hne
      exact ⟨ex, hmem, hid, hne⟩
    · rintro ⟨cp, hcp, hcpid, hcpne⟩ heq
      apply hcpne
      have hcpex : cp = ex :=
        List.inj_on_of_nodup_map hc hcp hmem (by rw [hcpid, ← hid])
      rw [hcpex, heq]

/-- C1: on cached and freshly normalized lists with pairwise-distinct
ids, the stats of a successful performSync count as added the new
products whose id is absent from the cache, as updated the new
products whose id is present with structurally different content, and
as deleted the cached products whose id is absent from the new list. -/
theorem performSync_stats_spec (rawData : List RawGroup) (now : String)
    (st : PersistedState)
    (hc : (st.products.map Product.id).Nodup)
    (_hn : ((normalizeData rawData).map Product.id).Nodup) :
    (performSync (FetchResult.success rawData) now st).2 =
      Except.ok (normalizeData rawData,
        { added := (normalizeData rawData).countP
            (fun np => decide (∀ cp ∈ st.products, cp.id ≠ np.id)),
          updated := (normalizeData rawData).countP
            (fun np => decide (∃ cp ∈ st.products, cp.id = np.id ∧ cp ≠ np)),
          deleted := st.products.countP
            (fun cp => decide (∀ np ∈ normalizeData rawData, np.id ≠ cp.id)),
          lastSynced := some now }) := by
  have hadded : (normalizeData rawData).countP (addedFlag st.products) =
      (normalizeData rawData).countP
        (fun np => decide (∀ cp ∈ st.products, cp.id ≠ np.id)) := by
    apply List.countP_congr
    intro np _
    rw [addedFlag_iff, decide_eq_true_eq]
  have hupdated : (normalizeData rawData).countP (updatedFlag st.products) =
      (normalizeData rawData).countP
        (fun np => decide (∃ cp ∈ st.products, cp.id = np.id ∧ cp ≠ np)) := by
    apply List.countP_congr
    intro np _
    rw [updatedFlag_iff st.products np hc, decide_eq_true_eq]
  have hdeleted :
      st.products.countP (fun cp => !mapHas (normalizeData rawData) cp.id) =
      st.products.countP
        (fun cp => decide (∀ np ∈ normalizeData rawData, np.id ≠ cp.id)) := by
    apply List.countP_congr
    intro cp _
    rw [Bool.not_eq_true', mapHas_eq_false_iff, decide_eq_true_eq]
  have hdeltas := syncDeltas_eq_countP st.products (normalizeData rawData)
  calc (performSync (FetchResult.success rawData) now st).2
      = Except.ok (normalizeData rawData,
          { added := (syncDeltas st.products (normalizeData rawData)).1,
            updated := (syncDeltas st.products (normalizeData rawData)).2.1,
            deleted := (syncDeltas st.products (normalizeData rawData)).2.2,
            lastSynced := some now }) := rfl
    _ = Except.ok (normalizeData rawData,
          { added := (normalizeData rawData).countP
              (fun np => decide (∀ cp ∈ st.products, cp.id ≠ np.id)),
            updated := (normalizeData rawData).countP
              (fun np =>
                decide (∃ cp ∈ st.products, cp.id = np.id ∧ cp ≠ np)),
            deleted := st.products.countP
              (fun cp => decide (∀ np ∈ normalizeData rawData, np.id ≠ cp.id)),
            lastSynced := some now }) := by
        rw [hdeltas]
        dsimp only
        rw [hadded, hupdated, hdeleted]

theorem performSync_stats_spec_witness :
    ((emptyState.products.map Product.id).Nodup) ∧
    (((normalizeData inksCatalog).map Product.id).Nodup) ∧
    (performSync (FetchResult.success inksCatalog) "t" emptyState).2 =
      Except.ok (normalizeData inksCatalog,
        { added := (normalizeData inksCatalog).countP
            (fun np => decide (∀ cp ∈ emptyState.products, cp.id ≠ np.id)),
          updated := (normalizeData inksCatalog).countP
            (fun np =>
              decide (∃ cp ∈ emptyState.products, cp.id = np.id ∧ cp ≠ np)),
          deleted := emptyState.products.countP
            (fun cp => decide (∀ np ∈ normalizeData inksCatalog, np.id ≠ cp.id)),
          lastSynced := some "t" }) :=
  ⟨by decide, by decide,
   performSync_stats_spec inksCatalog "t" emptyState (by decide) (by decide)⟩

end ESBE
